import Mathlib

/-!
Verification of the rollup-plugin-overture compiler core (src/index.js).

The development shallowly embeds the transformation pipeline of the plugin:
the expression splitter (findExpression / handleExpressions), attribute
lowering (parseProperties), the draw synthesizer (toDraw and its handlers),
script extraction, the overture/dom import step, the import registry, the
node classifier, and the load pipeline that strings them together.

External collaborators (the acorn expression/program parsers) are modelled
as function parameters: an expression parser takes the raw source text that
the code hands to parseExpressionAt and either returns a parsed expression
or fails, and a script parser takes the text and mode handed to parse and
returns the top-level statements it appends to the shared program.
Fallible steps return Except String; an error value models a thrown
exception aborting the compilation with no output.
-/

/-- Brace scanner loop of findExpression (src/index.js lines 15-32).
The JS loop keeps an openBraces counter (which may go negative on stray
closing braces, hence Int), records start when a brace is opened at
counter zero, and returns the start/end positions when a closing brace
brings the counter back to zero. -/
def findExprAux : List Char → Int → Nat → Nat → Option (Nat × Nat)
  | [], _, _, _ => none
  | c :: rest, openBraces, start, pos =>
    if c = '{' then
      findExprAux rest (openBraces + 1) (if openBraces = 0 then pos else start) (pos + 1)
    else if c = '}' then
      if openBraces - 1 = 0 then some (start, pos)
      else findExprAux rest (openBraces - 1) start (pos + 1)
    else findExprAux rest openBraces start (pos + 1)

/-- findExpression (src/index.js lines 15-32): positions of the first
balanced brace span, or none. -/
def findExpression (s : String) : Option (Nat × Nat) :=
  findExprAux s.data 0 0 0

/-- JS String.prototype.slice with a start and an end index (both
non-negative, end clamped to the length, as in the call sites). -/
def jsSlice (s : String) (a b : Nat) : String :=
  ⟨(s.data.drop a).take (b - a)⟩

/-- JS String.prototype.slice with only a start index. -/
def jsSliceFrom (s : String) (a : Nat) : String :=
  ⟨s.data.drop a⟩

/-- JS String.prototype.length (the code only ever slices at scanner
positions, which count characters). -/
def strLen (s : String) : Nat :=
  s.data.length

/-- Output expression syntax (the estree-builder shapes the code emits).
parsed wraps the raw source text that the external expression parser was
given (the parse result is opaque to this embedding); arr is an
ArrayExpression whose elements may be null holes (JS null results of
toDraw end up inside children arrays); fnRet is a function expression
with a parameter list, a name, and a body consisting of a single return
statement; exportDefault is the default-export wrapper produced by the
root handler. -/
inductive Expr where
  | str : String → Expr
  | litList : List String → Expr
  | id : String → Expr
  | parsed : String → Expr
  | arr : List (Option Expr) → Expr
  | obj : List (String × Expr) → Expr
  | call : Expr → List Expr → Expr
  | member : Expr → String → Expr
  | new : Expr → List Expr → Expr
  | fnRet : List String → String → Expr → Expr
  | exportDefault : Expr → Expr

/-- The external expression parser collaborator (acorn parseExpressionAt
at offset 0 with ecmaVersion latest): raw text in, expression out, or a
thrown parse error. -/
def ExprParser : Type :=
  String → Except String Expr

/-- An expression parser that succeeds on every input, returning the
opaque parsed expression for the given source text. -/
def okP : ExprParser :=
  fun s => .ok (.parsed s)

/-- An expression parser that fails exactly on the empty source text
(acorn raises a parse error when given the empty string). -/
def failEmptyP : ExprParser :=
  fun s => if s = "" then .error "empty-expression" else .ok (.parsed s)

/-- handleExpressions (src/index.js lines 34-50): on a match the value is
split into an array of parts (literal prefix when start is positive, the
parsed inside of the braces, literal suffix when anything follows the
closing brace); without a match the whole value becomes a single string
literal (inl, a non-array result). -/
def handleExpressions (p : ExprParser) (value : String) :
    Except String (Sum Expr (List Expr)) :=
  match findExpression value with
  | some (st, en) => do
    let pre := if 0 < st then [Expr.str (jsSlice value 0 st)] else []
    let ex ← p (jsSlice value (st + 1) en)
    let suf := if en + 1 < strLen value then [Expr.str (jsSliceFrom value (en + 1))] else []
    pure (Sum.inr (pre ++ [ex] ++ suf))
  | none => .ok (.inl (.str value))

/-- The concatenation expression built for an array of parts in
parseProperties (src/index.js lines 60-64): a call of the join member of
the array expression with the empty string argument. -/
def joinParts (parts : List Expr) : Expr :=
  .call (.member (.arr (parts.map some)) "join") [.str ""]

/-- An attribute value in the document tree: a plain string or an
already-tokenized list (hast stores the class attribute as an array of
class names). -/
inductive AttrValue where
  | str : String → AttrValue
  | list : List String → AttrValue

/-- The string branch of the parseProperties reduce body (src/index.js
lines 59-67): run handleExpressions, then wrap an array result in the
join call and keep a non-array result as is. -/
def lowerStr (p : ExprParser) (s : String) : Except String Expr := do
  let r ← handleExpressions p s
  match r with
  | .inl ex => pure ex
  | .inr parts => pure (joinParts parts)

/-- One step of the parseProperties reduce (src/index.js lines 54-68): a
className array is joined with spaces before splitting; any other array
value skips the splitter match and is kept as a raw literal (the code
path for a non-className array never matches a span because the scanner
compares whole array elements against brace characters, which hast token
lists do not contain). -/
def lowerValue (p : ExprParser) (key : String) (v : AttrValue) : Except String Expr :=
  match v with
  | .str s => lowerStr p s
  | .list l =>
    if key = "className" then lowerStr p (String.intercalate " " l)
    else .ok (.litList l)

/-- parseProperties (src/index.js lines 52-70): lower every attribute in
order into the object-literal entry list. -/
def parseProperties (p : ExprParser) :
    List (String × AttrValue) → Except String (List (String × Expr))
  | [] => .ok []
  | (k, v) :: rest => do
    let ex ← lowerValue p k v
    let ps ← parseProperties p rest
    pure ((k, ex) :: ps)

/-- A document tree node (hast after the raw normalizer): root, element,
text, the view variant produced by the classifier, and comment standing
for a node type with no registered handler in toDraw. -/
inductive Node where
  | root : List Node → Node
  | element : String → List (String × AttrValue) → List Node → Node
  | text : String → Node
  | view : String → List (String × AttrValue) → List Node → Node
  | comment : String → Node

/-- The error message thrown by the element handler for a script tag
(src/index.js line 84). -/
def nestedScriptMsg : String :=
  "Nested <script> tags are not supported!"

/-- The filter predicate of toDraw (src/index.js line 113): text nodes
whose value is exactly one newline are dropped from children. -/
def isNewlineText : Node → Bool
  | .text v => v == "\n"
  | _ => false

/-- Result of one toDraw call as the JS sees it: a single value (an
expression, or null for a node type with no handler) or the raw parts
array returned by the text handler, which flatMap splices into the
children of the parent. -/
inductive TDRes where
  | one : Option Expr → TDRes
  | many : List Expr → TDRes

mutual

/-- toDraw and the handlers table (src/index.js lines 72-121): root wraps
the children array in an exported draw function; element lowers children
first, then throws on a script tag, then builds the el call; text returns
the handleExpressions result unchanged; view lowers children (errors
still propagate) but ignores them and builds the new construction with
the properties object as only argument; a node type with no handler
returns null. -/
def toDraw (p : ExprParser) : Node → Except String TDRes
  | .root children => do
    let cs ← toDrawChildren p children
    pure (.one (some (.exportDefault (.fnRet ["ctx"] "draw" (.arr cs)))))
  | .element tag props children => do
    let cs ← toDrawChildren p children
    if tag = "script" then throw nestedScriptMsg
    else do
      let ps ← parseProperties p props
      pure (.one (some (.call (.id "el") [.str tag, .obj ps, .arr cs])))
  | .text v => do
    let r ← handleExpressions p v
    match r with
    | .inl ex => pure (.one (some ex))
    | .inr parts => pure (.many parts)
  | .view tag props children => do
    let _ ← toDrawChildren p children
    let ps ← parseProperties p props
    pure (.one (some (.new (.id tag) [.obj ps])))
  | .comment _ => pure (.one none)

/-- The children pipeline of toDraw (src/index.js lines 111-114): filter
out single-newline text nodes, lower each child, and let flatMap splice
parts arrays while keeping single values (including null) as one
element. -/
def toDrawChildren (p : ExprParser) : List Node → Except String (List (Option Expr))
  | [] => pure []
  | c :: rest =>
    if isNewlineText c then toDrawChildren p rest
    else do
      let r ← toDraw p c
      let rs ← toDrawChildren p rest
      pure ((match r with
             | .one o => [o]
             | .many es => es.map some) ++ rs)

end

/-- An import specifier in a top-level import declaration, keyed the way
the code inspects it: a named ImportSpecifier carries the imported name
and the local name; default and namespace specifiers carry only the
local name. -/
inductive ImportSpec where
  | importSpecifier : String → String → ImportSpec
  | importDefaultSpecifier : String → ImportSpec
  | importNamespaceSpecifier : String → ImportSpec

/-- A top-level statement of the output module: an import declaration
(specifier list and source string), an opaque non-import statement
produced by the script parser, or the draw declaration pushed at the end
of load. -/
inductive Stmt where
  | importDecl : List ImportSpec → String → Stmt
  | otherStmt : Nat → Stmt
  | drawStmt : TDRes → Stmt

/-- The external program parser collaborator (acorn parse with a shared
program): source text and the sourceType value taken from the script tag
type attribute in, appended top-level statements out, or a thrown parse
error. -/
def ScriptParser : Type :=
  String → AttrValue → Except String (List Stmt)

/-- A script parser for documents with no script tags (never invoked by
load on such documents). -/
def spUnused : ScriptParser :=
  fun _ _ => .error "unused"

/-- The value the JS reads as script.value for a child of a script
element: the value field of a text or comment node; for a node without a
value field the parser collaborator receives the string coercion of
undefined. -/
def nodeValueJS : Node → String
  | .text v => v
  | .comment v => v
  | _ => "undefined"

/-- The destructuring const (type = script) = element.properties
(src/index.js line 157): the type attribute value if present, the string
script otherwise. -/
def scriptMode (props : List (String × AttrValue)) : AttrValue :=
  match props.find? (fun kv => kv.1 == "type") with
  | some kv => kv.2
  | none => .str "script"

/-- The forEach over the children of a script element (src/index.js line
158): parse each child value in document order, accumulating statements
into the shared program. -/
def parseScriptChildren (sp : ScriptParser) (mode : AttrValue) :
    List Node → Except String (List Stmt)
  | [] => .ok []
  | c :: rest => do
    let s1 ← sp (nodeValueJS c) mode
    let srest ← parseScriptChildren sp mode rest
    pure (s1 ++ srest)

/-- Script extraction (src/index.js lines 155-166): the filter over the
root children parses every script-tagged element into statements and
removes it from the visual tree, keeping every other node. -/
def extractScripts (sp : ScriptParser) :
    List Node → Except String (List Stmt × List Node)
  | [] => .ok ([], [])
  | .element "script" props children :: rest => do
    let stmts ← parseScriptChildren sp (scriptMode props) children
    let (ss, ks) ← extractScripts sp rest
    pure (stmts ++ ss, ks)
  | .view "script" props children :: rest => do
    let stmts ← parseScriptChildren sp (scriptMode props) children
    let (ss, ks) ← extractScripts sp rest
    pure (stmts ++ ss, ks)
  | other :: rest => do
    let (ss, ks) ← extractScripts sp rest
    pure (ss, other :: ks)

/-- The hasElImport test (src/index.js line 172): a specifier counts only
if it is a named ImportSpecifier whose imported name is el. -/
def specIsEl : ImportSpec → Bool
  | .importSpecifier imported _ => imported == "el"
  | _ => false

/-- The find predicate shape (src/index.js line 171): an
ImportDeclaration whose source is the overture/dom module. -/
def stmtIsOvertureDomImport : Stmt → Bool
  | .importDecl _ src => src == "overture/dom"
  | _ => false

/-- The mutation the find callback performs on the first import from
overture/dom (src/index.js lines 172-175): push an el specifier unless
one is already present. -/
def addElIfMissing : Stmt → Stmt
  | .importDecl specs src =>
    if specs.any specIsEl then .importDecl specs src
    else .importDecl (specs ++ [.importSpecifier "el" "el"]) src
  | s => s

/-- The module.body.find walk (src/index.js lines 170-179): locate the
first overture/dom import, mutate it in place, and leave everything after
it untouched; none when no such import exists. -/
def ensureElAux : List Stmt → Option (List Stmt)
  | [] => none
  | s :: rest =>
    if stmtIsOvertureDomImport s then some (addElIfMissing s :: rest)
    else match ensureElAux rest with
         | some restOut => some (s :: restOut)
         | none => none

/-- The import statement unshifted when no overture/dom import exists
(src/index.js lines 181-185). -/
def elImportStmt : Stmt :=
  .importDecl [.importSpecifier "el" "el"] "overture/dom"

/-- The whole el-import step (src/index.js lines 170-186): mutate the
first overture/dom import when one exists, otherwise prepend a fresh
el import at the very front of the module body. -/
def ensureEl (body : List Stmt) : List Stmt :=
  match ensureElAux body with
  | some newBody => newBody
  | none => elImportStmt :: body

/-- An import statement that imports el from overture/dom (used to count
how often the element-construction primitive import appears). -/
def stmtImportsEl : Stmt → Bool
  | .importDecl specs src => src == "overture/dom" && specs.any specIsEl
  | _ => false

/-- specifier.local.name as the registry reads it (src/index.js line
196). -/
def specLocal : ImportSpec → String
  | .importSpecifier _ l => l
  | .importDefaultSpecifier l => l
  | .importNamespaceSpecifier l => l

/-- The capitalization test of the registry (src/index.js line 197): the
first character is an ASCII uppercase letter. -/
def startsUpper (s : String) : Bool :=
  match s.data with
  | [] => false
  | c :: _ => 'A' ≤ c && c ≤ 'Z'

/-- JS String.prototype.toLowerCase, as the registry applies it to an
identifier (src/index.js line 198): lowercase the characters one by
one. -/
def jsToLower (s : String) : String :=
  ⟨s.data.map Char.toLower⟩

/-- JS Map.set on an association list: overwrite in place when the key
exists, append otherwise. -/
def mapSet (m : List (String × String)) (k v : String) : List (String × String) :=
  if m.any (fun kv => kv.1 == k) then
    m.map (fun kv => if kv.1 == k then (k, v) else kv)
  else m ++ [(k, v)]

/-- JS Map.get on an association list. -/
def mapGet (m : List (String × String)) (k : String) : Option String :=
  (m.find? (fun kv => kv.1 == k)).map (fun kv => kv.2)

/-- The inner forEach of the registry builder (src/index.js lines
195-200): register the lowercased local name of every capitalized
specifier, last writer winning. -/
def registerSpecs (m : List (String × String)) : List ImportSpec → List (String × String)
  | [] => m
  | sp :: rest =>
    let name := specLocal sp
    registerSpecs (if startsUpper name then mapSet m (jsToLower name) name else m) rest

/-- The import registry table (src/index.js lines 190-201): fold over the
module body, inspecting only ImportDeclarations. -/
def buildImports (body : List Stmt) : List (String × String) :=
  body.foldl
    (fun m st =>
      match st with
      | .importDecl specs _ => registerSpecs m specs
      | _ => m)
    []

/-- The set of standard markup tag names the classifier skips
(src/index.js lines 9, 13, 206). The list embeds the contents of the
html-tag-names package, an external fixed contract constant of the
system. -/
def standardTags : List String :=
  ["a", "abbr", "acronym", "address", "applet", "area", "article", "aside",
   "audio", "b", "base", "basefont", "bdi", "bdo", "bgsound", "big",
   "blink", "blockquote", "body", "br", "button", "canvas", "caption",
   "center", "cite", "code", "col", "colgroup", "command", "content",
   "data", "datalist", "dd", "del", "details", "dfn", "dialog", "dir",
   "div", "dl", "dt", "element", "em", "embed", "fieldset", "figcaption",
   "figure", "font", "footer", "form", "frame", "frameset", "h1", "h2",
   "h3", "h4", "h5", "h6", "head", "header", "hgroup", "hr", "html", "i",
   "iframe", "image", "img", "input", "ins", "isindex", "kbd", "keygen",
   "label", "legend", "li", "link", "listing", "main", "map", "mark",
   "marquee", "math", "menu", "menuitem", "meta", "meter", "multicol",
   "nav", "nextid", "nobr", "noembed", "noframes", "noscript", "object",
   "ol", "optgroup", "option", "output", "p", "param", "picture",
   "plaintext", "pre", "progress", "q", "rb", "rbc", "rp", "rt", "rtc",
   "ruby", "s", "samp", "script", "search", "section", "select", "shadow",
   "slot", "small", "source", "spacer", "span", "strike", "strong",
   "style", "sub", "summary", "sup", "svg", "table", "tbody", "td",
   "template", "textarea", "tfoot", "th", "thead", "time", "title", "tr",
   "track", "tt", "u", "ul", "var", "video", "wbr", "xmp"]

mutual

/-- The classifier visit (src/index.js lines 205-215): every element node
whose tag is not a standard tag and whose tag name is a key of the import
registry is rewritten to a view node carrying the registry value as its
tag name; every other node is kept, and children are always visited. -/
def classifyNode (im : List (String × String)) : Node → Node
  | .element tag props children =>
    let kids := classifyList im children
    if standardTags.contains tag then .element tag props kids
    else
      match mapGet im tag with
      | some klass => .view klass props kids
      | none => .element tag props kids
  | .view tag props children => .view tag props (classifyList im children)
  | .root children => .root (classifyList im children)
  | .text v => .text v
  | .comment v => .comment v

/-- Children traversal of the classifier visit. -/
def classifyList (im : List (String × String)) : List Node → List Node
  | [] => []
  | n :: ns => classifyNode im n :: classifyList im ns

end

/-- The load pipeline after parsing (src/index.js lines 149-226) on the
children of the document root: extract scripts into the module body,
ensure the el import, build the registry, classify the remaining tree,
synthesize the draw declaration, and append it to the module body. An
error result models a thrown exception: the plugin produces no output at
all for that document. -/
def load (sp : ScriptParser) (p : ExprParser) (children : List Node) :
    Except String (List Stmt) := do
  let (stmts, kept) ← extractScripts sp children
  let body := ensureEl stmts
  let im := buildImports body
  let draw ← toDraw p (.root (classifyList im kept))
  pure (body ++ [.drawStmt draw])

/-- Depth step of the specification scan: depth increments on every
opening brace and decrements on every closing brace. -/
def braceStep (d : Int) (c : Char) : Int :=
  if c = '{' then d + 1 else if c = '}' then d - 1 else d

/-- Brace depth after scanning a list of characters starting from a given
depth. -/
def braceDepthFrom (d : Int) (cs : List Char) : Int :=
  cs.foldl braceStep d

/-- The specification phrasing of a balanced span existing: at some
closing brace the running depth returns to zero. -/
def depthReturnsToZero (s : String) : Prop :=
  ∃ k ∈ List.range s.data.length,
    s.data.getD k ' ' = '}' ∧ braceDepthFrom 0 (s.data.take (k + 1)) = 0

instance (s : String) : Decidable (depthReturnsToZero s) :=
  List.decidableBEx _ _

theorem excBind_ok (a : α) (f : α → Except ε β) : (Except.ok a >>= f) = f a :=
  rfl

theorem excBind_err (e : ε) (f : α → Except ε β) :
    ((Except.error e : Except ε α) >>= f) = .error e :=
  rfl

theorem excThrow (e : ε) : (throw e : Except ε α) = .error e :=
  rfl

theorem excPure (a : α) : (pure a : Except ε α) = .ok a :=
  rfl

theorem excMapOk (f : α → β) (a : α) :
    (f <$> (Except.ok a : Except ε α)) = .ok (f a) :=
  rfl

theorem excMapErr (f : α → β) (e : ε) :
    (f <$> (Except.error e : Except ε α)) = .error e :=
  rfl

/-- C1: For every input string the expression splitter extracts only the
first maximal balanced brace span located by findExpression and splits
the string into at most three ordered segments: a literal prefix only
when the span does not start at position zero, the parsed expression
over the substring strictly inside the braces, and a literal suffix only
when characters follow the closing brace; a string with no span is one
single literal segment. Concretely, splitting a{1+1}b yields the three
segments a, the expression 1+1, and b; splitting {x} yields exactly the
expression segment x with no leading or trailing literal; splitting
plain yields the single literal plain; and only the first of two spans
is extracted, the rest staying literal. -/
theorem splitExpression_spec (p : ExprParser) (v : String) :
    (findExpression v = none → handleExpressions p v = .ok (.inl (.str v)))
    ∧ (∀ st en, findExpression v = some (st, en) →
        handleExpressions p v =
          (p (jsSlice v (st + 1) en)).map (fun ex =>
            .inr ((if 0 < st then [Expr.str (jsSlice v 0 st)] else [])
              ++ [ex]
              ++ (if en + 1 < strLen v then [Expr.str (jsSliceFrom v (en + 1))] else []))))
    ∧ handleExpressions okP "a{1+1}b" = .ok (.inr [.str "a", .parsed "1+1", .str "b"])
    ∧ handleExpressions okP "{x}" = .ok (.inr [.parsed "x"])
    ∧ handleExpressions okP "plain" = .ok (.inl (.str "plain"))
    ∧ handleExpressions okP "{a}{b}" = .ok (.inr [.parsed "a", .str "{b}"]) := by
  refine ⟨?_, ?_, rfl, rfl, rfl, rfl⟩
  · intro h
    simp [handleExpressions, h]
  · intro st en h
    cases hp : p (jsSlice v (st + 1) en) with
    | ok ex => simp [handleExpressions, h, hp, excBind_ok, excPure, Except.map]
    | error e => simp [handleExpressions, h, hp, excBind_err, Except.map]

theorem splitExpression_spec_witness :
    findExpression "plain" = none
    ∧ handleExpressions okP "plain" = .ok (.inl (.str "plain")) :=
  ⟨by decide, (splitExpression_spec okP "plain").1 (by decide)⟩

theorem findExprAux_eq_none :
    (cs : List Char) → (d : Int) → (st pos : Nat) →
    (∀ j, j < cs.length → cs.getD j ' ' = '}' →
      braceDepthFrom d (cs.take (j + 1)) ≠ 0) →
    findExprAux cs d st pos = none
  | [], _, _, _, _ => rfl
  | c :: rest, d, st, pos, h => by
    have hstep : ∀ j, j < rest.length → rest.getD j ' ' = '}' →
        braceDepthFrom (braceStep d c) (rest.take (j + 1)) ≠ 0 := by
      intro j hj hcj
      have h2 := h (j + 1) (by simpa using Nat.succ_lt_succ hj) (by simpa using hcj)
      simpa [braceDepthFrom] using h2
    by_cases h1 : c = '{'
    · subst h1
      rw [show findExprAux ('{' :: rest) d st pos =
            findExprAux rest (d + 1) (if d = 0 then pos else st) (pos + 1) from by
          simp [findExprAux]]
      exact findExprAux_eq_none rest (d + 1) _ (pos + 1) (by simpa [braceStep] using hstep)
    · by_cases h2 : c = '}'
      · subst h2
        have hne : braceDepthFrom d [('}' : Char)] ≠ 0 := by
          have h0 := h 0 (by simp) (by simp)
          simpa using h0
        have hd : ¬(d - 1 = 0) := by
          simpa [braceDepthFrom, braceStep] using hne
        rw [show findExprAux ('}' :: rest) d st pos =
              findExprAux rest (d - 1) st (pos + 1) from by
            simp [findExprAux, hd]]
        exact findExprAux_eq_none rest (d - 1) st (pos + 1)
          (by simpa [braceStep] using hstep)
      · rw [show findExprAux (c :: rest) d st pos = findExprAux rest d st (pos + 1) from by
            simp [findExprAux, h1, h2]]
        exact findExprAux_eq_none rest d st (pos + 1)
          (by simpa [braceStep, h1, h2] using hstep)

/-- C7: For every input string in which the running brace depth never
returns to zero at a closing brace (unbalanced braces), findExpression
locates no span and handleExpressions treats the whole value as one
single literal segment, raising no error. -/
theorem unbalancedBraces_literal (p : ExprParser) (s : String)
    (h : ¬ depthReturnsToZero s) :
    findExpression s = none ∧ handleExpressions p s = .ok (.inl (.str s)) := by
  have hn : findExpression s = none :=
    findExprAux_eq_none s.data 0 0 0
      (fun j hj hcj hz => h ⟨j, List.mem_range.mpr hj, hcj, hz⟩)
  exact ⟨hn, by simp [handleExpressions, hn]⟩

theorem unbalancedBraces_literal_witness :
    ¬ depthReturnsToZero (String.mk ['a', '{', 'b'])
    ∧ (findExpression (String.mk ['a', '{', 'b']) = none
      ∧ handleExpressions okP (String.mk ['a', '{', 'b']) =
          .ok (.inl (.str (String.mk ['a', '{', 'b'])))) :=
  ⟨by decide, unbalancedBraces_literal okP (String.mk ['a', '{', 'b']) (by decide)⟩

/-- A module body as produced from embedded scripts that declare two
separate imports from the overture/dom source, the second of which
already names el: for example one script block containing an import of c
from overture/dom and another containing an import of el from
overture/dom. -/
def dupOdBody : List Stmt :=
  [.importDecl [.importSpecifier "c" "c"] "overture/dom",
   .importDecl [.importSpecifier "el" "el"] "overture/dom"]

/-- C2 counterexample: on a module body with two imports from the
overture/dom source where only the second names el, the import step
leaves two import statements for that one source and pushes el into the
first import even though the second already has it, so the el import
appears twice; neither the at-most-one-import-per-source invariant nor
the el-exactly-once invariant holds. -/
theorem importRegistry_unique_counterexample :
    (ensureEl dupOdBody).countP stmtIsOvertureDomImport = 2
    ∧ (ensureEl dupOdBody).countP stmtImportsEl = 2
    ∧ ensureEl dupOdBody =
        [.importDecl [.importSpecifier "c" "c", .importSpecifier "el" "el"] "overture/dom",
         .importDecl [.importSpecifier "el" "el"] "overture/dom"] :=
  ⟨by decide, by decide, rfl⟩

theorem ensureElAux_none :
    (body : List Stmt) →
    (∀ s ∈ body, stmtIsOvertureDomImport s = false) →
    ensureElAux body = none
  | [], _ => rfl
  | s :: rest, h => by
    have hs : stmtIsOvertureDomImport s = false := h s (List.mem_cons_self s rest)
    have hr := ensureElAux_none rest (fun t ht => h t (List.mem_cons_of_mem s ht))
    simp [ensureElAux, hs, hr]

theorem ensureElAux_found :
    (pre : List Stmt) → (s : Stmt) → (post : List Stmt) →
    (∀ t ∈ pre, stmtIsOvertureDomImport t = false) →
    stmtIsOvertureDomImport s = true →
    ensureElAux (pre ++ s :: post) = some (pre ++ addElIfMissing s :: post)
  | [], s, _, _, hs => by simp [ensureElAux, hs]
  | t :: pre, s, post, h, hs => by
    have ht : stmtIsOvertureDomImport t = false := h t (List.mem_cons_self t pre)
    have hr := ensureElAux_found pre s post (fun u hu => h u (List.mem_cons_of_mem t hu)) hs
    simp [ensureElAux, ht, hr]

theorem addElIfMissing_isOd (s : Stmt) (h : stmtIsOvertureDomImport s = true) :
    stmtIsOvertureDomImport (addElIfMissing s) = true := by
  match s with
  | .importDecl specs src =>
    cases hel : specs.any specIsEl with
    | true => simpa [addElIfMissing, hel] using h
    | false => simpa [addElIfMissing, hel] using h
  | .otherStmt n => simp [stmtIsOvertureDomImport] at h
  | .drawStmt r => simp [stmtIsOvertureDomImport] at h

theorem addElIfMissing_importsEl (s : Stmt) (h : stmtIsOvertureDomImport s = true) :
    stmtImportsEl (addElIfMissing s) = true := by
  match s with
  | .importDecl specs src =>
    have hsrc : (src == "overture/dom") = true := by
      simpa [stmtIsOvertureDomImport] using h
    cases hel : specs.any specIsEl with
    | true => simp [addElIfMissing, hel, stmtImportsEl, hsrc]
    | false => simp [addElIfMissing, hel, stmtImportsEl, hsrc, specIsEl]
  | .otherStmt n => simp [stmtIsOvertureDomImport] at h
  | .drawStmt r => simp [stmtIsOvertureDomImport] at h

theorem ensureElAux_some :
    (body : List Stmt) → (res : List Stmt) →
    ensureElAux body = some res →
    ∃ s ∈ res, stmtIsOvertureDomImport s = true ∧ stmtImportsEl s = true
  | [], _, h => by simp [ensureElAux] at h
  | s :: rest, res, h => by
    cases hs : stmtIsOvertureDomImport s with
    | true =>
      simp [ensureElAux, hs] at h
      exact ⟨addElIfMissing s, by rw [← h]; exact List.mem_cons_self _ _,
        addElIfMissing_isOd s hs, addElIfMissing_importsEl s hs⟩
    | false =>
      simp [ensureElAux, hs] at h
      cases hr : ensureElAux rest with
      | none => rw [hr] at h; simp at h
      | some restOut =>
        rw [hr] at h; simp at h
        obtain ⟨t, ht, h1, h2⟩ := ensureElAux_some rest restOut hr
        exact ⟨t, by rw [← h]; exact List.mem_cons_of_mem s ht, h1, h2⟩

/-- C2 amended: after the import step, if the module body contained no
statement importing from the overture/dom source, a new import of el is
prepended at the very front; otherwise el is added to the specifier
list of the first such import only if not already present there, with
all later statements untouched; in every case the resulting body
contains an overture/dom import naming el. Imports from the same source
declared by the embedded scripts are not merged, so the body may keep
several imports per source and the el import may end up appearing more
than once. -/
theorem ensureEl_spec (body : List Stmt) :
    ((∀ s ∈ body, stmtIsOvertureDomImport s = false) →
        ensureEl body = elImportStmt :: body)
    ∧ (∀ pre s post, body = pre ++ s :: post →
        (∀ t ∈ pre, stmtIsOvertureDomImport t = false) →
        stmtIsOvertureDomImport s = true →
        ensureEl body = pre ++ addElIfMissing s :: post)
    ∧ (∃ s ∈ ensureEl body, stmtIsOvertureDomImport s = true ∧ stmtImportsEl s = true) := by
  refine ⟨?_, ?_, ?_⟩
  · intro h
    simp [ensureEl, ensureElAux_none body h]
  · intro pre s post hb hpre hs
    subst hb
    simp [ensureEl, ensureElAux_found pre s post hpre hs]
  · cases h : ensureElAux body with
    | none =>
      refine ⟨elImportStmt, ?_, by decide, by decide⟩
      simp [ensureEl, h]
    | some res =>
      have hres := ensureElAux_some body res h
      simpa [ensureEl, h] using hres

theorem ensureEl_spec_witness :
    (∀ s ∈ [Stmt.otherStmt 0], stmtIsOvertureDomImport s = false)
    ∧ ensureEl [Stmt.otherStmt 0] = elImportStmt :: [Stmt.otherStmt 0] :=
  ⟨by decide, (ensureEl_spec [Stmt.otherStmt 0]).1 (by decide)⟩

/-- C9: For every attribute, a className value that arrives as a token
list is first joined into one space-separated string and only then
split; for any attribute key, a value splitting into a single literal
segment lowers to that literal, and a value splitting into several
segments lowers to the runtime concatenation expression that joins all
segments in order with the empty string; the concrete property list
shows both paths inside parseProperties. -/
theorem attributeLowering_spec (p : ExprParser) (key : String) :
    (∀ l, lowerValue p "className" (.list l) = lowerStr p (String.intercalate " " l))
    ∧ (∀ s ex, handleExpressions p s = .ok (.inl ex) →
        lowerValue p key (.str s) = .ok ex)
    ∧ (∀ s parts, handleExpressions p s = .ok (.inr parts) →
        lowerValue p key (.str s) = .ok (joinParts parts))
    ∧ parseProperties okP [("className", .list ["a", "b"]), ("title", .str "t{x}u")] =
        .ok [("className", .str "a b"),
             ("title", joinParts [.str "t", .parsed "x", .str "u"])] := by
  refine ⟨?_, ?_, ?_, rfl⟩
  · intro l
    simp [lowerValue]
  · intro s ex h
    simp [lowerValue, lowerStr, h, excBind_ok, excPure]
  · intro s parts h
    simp [lowerValue, lowerStr, h, excBind_ok, excPure]

theorem attributeLowering_spec_witness :
    handleExpressions okP "a{1+1}b" = .ok (.inr [.str "a", .parsed "1+1", .str "b"])
    ∧ lowerValue okP "title" (.str "a{1+1}b") =
        .ok (joinParts [.str "a", .parsed "1+1", .str "b"]) :=
  ⟨rfl, (attributeLowering_spec okP "title").2.2.1 "a{1+1}b" _ rfl⟩

theorem jsSlice_self (s : String) (a : Nat) : jsSlice s a a = "" := by
  unfold jsSlice
  rw [Nat.sub_self]
  rfl

/-- C10: For every value whose first balanced span is an empty brace
pair, the splitter matches the span and hands the empty substring inside
the braces to the expression parser; with a parser that fails on the
empty input (as the acorn collaborator does), handleExpressions
propagates the failure, and compiling a document whose text carries the
value aborts with that error instead of treating the braces as literal
text. -/
theorem emptyExpression_fatal (p : ExprParser) (v msg : String) (st : Nat)
    (hfind : findExpression v = some (st, st + 1))
    (hp : p "" = .error msg) :
    handleExpressions p v = .error msg
    ∧ (∀ sp : ScriptParser, load sp p [.element "div" [] [.text v]] = .error msg) := by
  have h1 : handleExpressions p v = .error msg := by
    simp [handleExpressions, hfind, jsSlice_self, hp, excBind_err]
  refine ⟨h1, ?_⟩
  intro sp
  have hvne : v ≠ "\n" := by
    intro hv
    rw [hv] at hfind
    have h0 : (none : Option (Nat × Nat)) = some (st, st + 1) := hfind
    exact Option.noConfusion h0
  have hne : isNewlineText (.text v) = false := by
    simp [isNewlineText]
    exact hvne
  have hextract : extractScripts sp [Node.element "div" [] [.text v]] =
      .ok ([], [Node.element "div" [] [.text v]]) := rfl
  have hdraw : toDraw p (.root (classifyList (buildImports (ensureEl [])) [Node.element "div" [] [.text v]])) = .error msg := by
    have hclass : classifyList (buildImports (ensureEl [])) [Node.element "div" [] [.text v]] =
        [Node.element "div" [] [.text v]] := rfl
    rw [hclass]
    simp [toDraw, toDrawChildren, hne, hvne, h1, isNewlineText, excBind_ok, excBind_err,
      excThrow, excPure]
  simp [load, hextract, hdraw, excBind_ok, excBind_err]

theorem emptyExpression_fatal_witness :
    findExpression (String.mk ['{', '}']) = some (0, 0 + 1)
    ∧ failEmptyP "" = .error "empty-expression"
    ∧ handleExpressions failEmptyP (String.mk ['{', '}']) = .error "empty-expression"
    ∧ load spUnused failEmptyP
        [.element "div" [] [.text (String.mk ['{', '}'])]] = .error "empty-expression" :=
  ⟨by decide, rfl,
   (emptyExpression_fatal failEmptyP (String.mk ['{', '}']) "empty-expression" 0
     (by decide) rfl).1,
   (emptyExpression_fatal failEmptyP (String.mk ['{', '}']) "empty-expression" 0
     (by decide) rfl).2 spUnused⟩

/-- A div element whose only text child mixes a literal prefix, an
embedded expression, and a literal suffix. -/
def mixedTextDiv : Node :=
  .element "div" [] [.text "a{1+1}b"]

/-- C3 counterexample: a text node splitting into the three segments a,
expression 1+1, and b does not lower to one concatenation expression:
the segments are spliced as three separate children of the enclosing
element call, so the claimed single join expression is not what the
synthesizer produces. -/
theorem textConcat_counterexample :
    toDraw okP mixedTextDiv =
      .ok (.one (some (.call (.id "el")
        [.str "div", .obj [],
         .arr [some (.str "a"), some (.parsed "1+1"), some (.str "b")]])))
    ∧ toDraw okP mixedTextDiv ≠
        .ok (.one (some (.call (.id "el")
          [.str "div", .obj [],
           .arr [some (joinParts [.str "a", .parsed "1+1", .str "b"])]]))) := by
  constructor
  · rfl
  · intro h
    rw [show toDraw okP mixedTextDiv =
        Except.ok (TDRes.one (some (Expr.call (Expr.id "el")
          [Expr.str "div", Expr.obj [],
           Expr.arr [some (Expr.str "a"), some (Expr.parsed "1+1"), some (Expr.str "b")]])))
      from rfl] at h
    simp [joinParts] at h

/-- C3 amended: a text node whose value splits into several segments
lowers to the raw list of segment expressions, which the parent splices
in order as separate children (no concatenation is built for text,
unlike attribute values); a text node splitting into a single literal
segment lowers to that one string literal. -/
theorem textLowering_spec (p : ExprParser) (v : String) :
    (∀ parts, handleExpressions p v = .ok (.inr parts) →
        toDraw p (.text v) = .ok (.many parts))
    ∧ (∀ ex, handleExpressions p v = .ok (.inl ex) →
        toDraw p (.text v) = .ok (.one (some ex)))
    ∧ toDraw okP (.root [mixedTextDiv]) =
        .ok (.one (some (.exportDefault (.fnRet ["ctx"] "draw"
          (.arr [some (.call (.id "el")
            [.str "div", .obj [],
             .arr [some (.str "a"), some (.parsed "1+1"), some (.str "b")]])]))))) := by
  refine ⟨?_, ?_, rfl⟩
  · intro parts h
    simp [toDraw, h, excBind_ok, excPure]
  · intro ex h
    simp [toDraw, h, excBind_ok, excPure]

theorem textLowering_spec_witness :
    handleExpressions okP "a{1+1}b" = .ok (.inr [.str "a", .parsed "1+1", .str "b"])
    ∧ toDraw okP (.text "a{1+1}b") = .ok (.many [.str "a", .parsed "1+1", .str "b"]) :=
  ⟨rfl, (textLowering_spec okP "a{1+1}b").1 _ rfl⟩

/-- C6 counterexample: a document whose div holds a comment node
compiles without any error: the comment lowers to null and becomes a
null hole in the children array, so no UnsupportedNodeError (or any
failure) occurs. -/
theorem unsupportedNode_counterexample :
    load spUnused okP [.element "div" [] [.comment "hi"]] =
      .ok [elImportStmt,
           .drawStmt (.one (some (.exportDefault (.fnRet ["ctx"] "draw"
             (.arr [some (.call (.id "el")
               [.str "div", .obj [], .arr [none]])])))))] :=
  rfl

/-- C6 amended: a document node of a type with no registered lowering
(such as a comment) lowers to null with no error raised: it surfaces as
a null hole in the children array of its parent, and the compilation of
the document succeeds. -/
theorem unsupportedNode_lowersToNull (p : ExprParser) (v : String) :
    toDraw p (.comment v) = .ok (.one none)
    ∧ toDraw p (.element "div" [] [.comment v]) =
        .ok (.one (some (.call (.id "el") [.str "div", .obj [], .arr [none]]))) := by
  constructor
  · rfl
  · rfl

mutual

theorem classifyNode_idem (im : List (String × String)) :
    (n : Node) → classifyNode im (classifyNode im n) = classifyNode im n
  | .root children => by
    simp only [classifyNode]
    rw [classifyList_idem im children]
  | .element tag props children => by
    cases hstd : standardTags.contains tag with
    | true =>
      simp only [classifyNode, hstd, if_true]
      rw [classifyList_idem im children]
    | false =>
      cases hget : mapGet im tag with
      | some klass =>
        simp only [classifyNode, hstd, hget, Bool.false_eq_true, if_false]
        rw [classifyList_idem im children]
      | none =>
        simp only [classifyNode, hstd, hget, Bool.false_eq_true, if_false]
        rw [classifyList_idem im children]
  | .view tag props children => by
    simp only [classifyNode]
    rw [classifyList_idem im children]
  | .text v => rfl
  | .comment v => rfl

theorem classifyList_idem (im : List (String × String)) :
    (ns : List Node) → classifyList im (classifyList im ns) = classifyList im ns
  | [] => rfl
  | n :: ns => by
    simp only [classifyList]
    rw [classifyNode_idem im n, classifyList_idem im ns]

end

/-- C8: The classifier is idempotent: applying the classification pass a
second time with the same import registry yields exactly the tree of the
first application, because classification only promotes element nodes to
view nodes and never rewrites a view node back. -/
theorem classifierIdempotent (im : List (String × String)) (n : Node) :
    classifyNode im (classifyNode im n) = classifyNode im n :=
  classifyNode_idem im n

/-- Source text of a module script block importing the Foo component. -/
def fooScriptSrc : String :=
  "import { Foo } from \"./foo.js\";"

/-- A script parser that parses exactly the Foo import block into the
corresponding declaration (the statements acorn would append for it). -/
def spFoo : ScriptParser :=
  fun src _ =>
    if src = fooScriptSrc then .ok [.importDecl [.importSpecifier "Foo" "Foo"] "./foo.js"]
    else .error "parse"

/-- Document with one module script block importing Foo and one foo tag
with an attribute. -/
def fooDoc : List Node :=
  [.element "script" [("type", .str "module")] [.text fooScriptSrc],
   .element "foo" [("attr", .str "1")] []]

/-- Expected output module for fooDoc: the prepended el import, the
Foo import, and a draw function constructing Foo with only the
properties object. -/
def fooExpected : List Stmt :=
  [elImportStmt,
   .importDecl [.importSpecifier "Foo" "Foo"] "./foo.js",
   .drawStmt (.one (some (.exportDefault (.fnRet ["ctx"] "draw"
     (.arr [some (.new (.id "Foo") [.obj [("attr", .str "1")]])])))))]

/-- C4: An element whose tag is not a standard markup tag and whose tag
name is a key of the import registry is rewritten in place to a view
node carrying the correctly-cased registry identifier, and the
synthesizer lowers a view node to a new-style construction of that
identifier with exactly one argument, the lowered-properties object,
ignoring children; concretely, with Foo imported, a document with tag
foo compiles to a module whose draw constructs new Foo with the
attribute object, which is not an el call. -/
theorem componentInstantiation_spec (im : List (String × String)) (tag klass : String)
    (props : List (String × AttrValue)) (children : List Node) (p : ExprParser)
    (cs : List (Option Expr))
    (hstd : standardTags.contains tag = false)
    (hget : mapGet im tag = some klass)
    (hch : toDrawChildren p children = .ok cs) :
    classifyNode im (.element tag props children) =
      .view klass props (classifyList im children)
    ∧ toDraw p (.view klass props children) =
        (parseProperties p props).map (fun ps => .one (some (.new (.id klass) [.obj ps])))
    ∧ load spFoo okP fooDoc = .ok fooExpected
    ∧ Expr.new (.id "Foo") [.obj [("attr", .str "1")]] ≠
        Expr.call (.id "el") [.str "foo", .obj [("attr", .str "1")], .arr []] := by
  refine ⟨?_, ?_, rfl, by simp⟩
  · simp only [classifyNode, hstd, Bool.false_eq_true, if_false, hget]
  · cases hps : parseProperties p props with
    | ok ps => simp [toDraw, hch, hps, excBind_ok, excPure, Except.map]
    | error e => simp [toDraw, hch, hps, excBind_ok, excBind_err, Except.map]

theorem componentInstantiation_spec_witness :
    standardTags.contains "foo" = false
    ∧ mapGet [("foo", "Foo")] "foo" = some "Foo"
    ∧ toDrawChildren okP [] = .ok []
    ∧ (classifyNode [("foo", "Foo")] (.element "foo" [("attr", .str "1")] []) =
        .view "Foo" [("attr", .str "1")] (classifyList [("foo", "Foo")] [])
      ∧ toDraw okP (.view "Foo" [("attr", .str "1")] []) =
          (parseProperties okP [("attr", .str "1")]).map
            (fun ps => .one (some (.new (.id "Foo") [.obj ps])))
      ∧ load spFoo okP fooDoc = .ok fooExpected
      ∧ Expr.new (.id "Foo") [.obj [("attr", .str "1")]] ≠
          Expr.call (.id "el") [.str "foo", .obj [("attr", .str "1")], .arr []]) :=
  ⟨by decide, by decide, rfl,
   componentInstantiation_spec [("foo", "Foo")] "foo" "Foo" [("attr", .str "1")] [] okP []
     (by decide) (by decide) rfl⟩

/-- C5: A script-tagged element reaching the draw synthesizer (one not
removed by the top-level extraction, such as a script nested inside
another script that itself sits below a non-root element) makes the
whole compilation fail with the nested-script structural error, and the
pipeline produces no output module at all: the load result is the bare
error. -/
theorem nestedScript_fatal (p : ExprParser) (sp : ScriptParser)
    (props pc : List (String × AttrValue)) :
    toDraw p (.element "script" props [.element "script" pc []]) = .error nestedScriptMsg
    ∧ load sp p [.element "div" [] [.element "script" [] [.element "script" [] []]]] =
        .error nestedScriptMsg := by
  constructor
  · simp [toDraw, toDrawChildren, isNewlineText, excBind_ok, excBind_err, excThrow, excPure]
  · rfl
